import Mathlib

/-!
Verification development for the rrdom virtual DOM module (src/unnamed/part_000,
with the earlier variant src/src/rrdom/tree-node.ts embedded separately where a
claim refers to it).

The JavaScript classes RRNode / RRDocument / RRDocumentType / RRElement /
RRText / RRComment / RRCDATASection are embedded as one record type
`RRNodeData` tagged with a `NodeKind`; object references become natural-number
addresses into a `Heap`.  Methods that mutate the object graph become functions
from `Heap` to `Heap`; methods that can throw return `Except String`.  Because
every source method performs its validity checks before any mutation, a thrown
exception corresponds to an `Except.error` carrying no heap, and "the tree is
left unmodified" is inherent in that encoding.
-/

namespace RRDom

/-- NodeType enum imported from rrweb-snapshot: Document = 0, DocumentType = 1,
Element = 2, Text = 3, CDATA = 4, Comment = 5. -/
def NodeType.Document : Nat := 0

def NodeType.DocumentType : Nat := 1

def NodeType.Element : Nat := 2

def NodeType.Text : Nat := 3

def NodeType.CDATA : Nat := 4

def NodeType.Comment : Nat := 5

/-- The tag of the variant a node was constructed as (RRDocument, RRDocumentType,
RRElement (incl. its Image/Media/Iframe subvariants), RRText, RRComment,
RRCDATASection). -/
inductive NodeKind where
  | document
  | documentType
  | element
  | text
  | comment
  | cdataSection
deriving DecidableEq

/-- serializedNodeWithId record attached to live nodes (the opaque id record of
rrweb-snapshot).  `type` is `none` when the stamping code read an entry of
NodeTypeMap that is absent (undefined in the source). -/
structure SN where
  type : Option Nat
  textContent : String
  id : Int
  rootId : Option Int := none
deriving DecidableEq

/-- State of one virtual node: the union of the fields of RRNode and of each of
its subclasses, tagged by `kind`.  Fields that a given variant does not use
keep their default. -/
structure RRNodeData where
  kind : NodeKind
  sn : Option SN := none
  children : List Nat := []
  parentElement : Option Nat := none
  parentNode : Option Nat := none
  tagName : String := ""
  attributes : List (String × String) := []
  textContent : String := ""
  data : String := ""
  name : String := ""
deriving DecidableEq

/-- The object graph: every address holds a node record. -/
abbrev Heap := Nat → RRNodeData

/-- Overwrite the record stored at address `i`. -/
def setNode (h : Heap) (i : Nat) (d : RRNodeData) : Heap :=
  fun j => if j = i then d else h j

/-- RRNode.nodeType: derived purely from the variant, following the source
instanceof chain. -/
def nodeType : NodeKind → Nat
  | .document => NodeType.Document
  | .documentType => NodeType.DocumentType
  | .element => NodeType.Element
  | .text => NodeType.Text
  | .cdataSection => NodeType.CDATA
  | .comment => NodeType.Comment

def appendChildUnsupportedMsg : String :=
  "RRDomException: Failed to execute appendChild on RRNode: This RRNode type does not support this method."

def insertBeforeUnsupportedMsg : String :=
  "RRDomException: Failed to execute insertBefore on RRNode: This RRNode type does not support this method."

def onlyOneMsg (nt : Nat) : String :=
  if nt = NodeType.Element then
    "RRDomException: Failed to execute appendChild on RRNode: Only one RRElement on RRDocument allowed."
  else
    "RRDomException: Failed to execute appendChild on RRNode: Only one RRDoctype on RRDocument allowed."

def refNotFoundMsg : String :=
  "Failed to execute insertBefore on RRNode: The RRNode before which the new node is to be inserted is not a child of this RRNode."

/-- The mutation body shared by the success path of RRDocument.appendChild:
clear the child's parentElement, point its parentNode at the document, push it
onto the children array. -/
def appendOn (h : Heap) (self childNode : Nat) : Heap :=
  let h1 := setNode h childNode
    { h childNode with parentElement := none, parentNode := some self }
  setNode h1 self { h1 self with children := (h1 self).children ++ [childNode] }

/-- The splice performed by both insertBefore methods once the reference child
was located at `childIndex`: Array.prototype.splice(childIndex, 0, newChild). -/
def spliceChildren (h : Heap) (self newChild childIndex : Nat) : Heap :=
  setNode h self
    { h self with children :=
        (h self).children.take childIndex ++ newChild :: (h self).children.drop childIndex }

namespace RRDocument

/-- RRDocument.appendChild: root-constraint check (at most one Element-kind and
one DocumentType-kind child), then clear parentElement, set parentNode, push. -/
def appendChild (h : Heap) (self childNode : Nat) : Except String Heap :=
  if nodeType (h childNode).kind = NodeType.Element ∨
      nodeType (h childNode).kind = NodeType.DocumentType then
    if (h self).children.any (fun s => nodeType (h s).kind == nodeType (h childNode).kind) then
      .error (onlyOneMsg (nodeType (h childNode).kind))
    else
      .ok (appendOn h self childNode)
  else
    .ok (appendOn h self childNode)

/-- RRDocument.insertBefore: null ref delegates to appendChild; otherwise the
ref must be a current child (Array.indexOf, first occurrence) and the new child
is spliced in at its index.  No root-constraint check and no back-reference
update happen on this path, exactly as in the source. -/
def insertBefore (h : Heap) (self newChild : Nat) : Option Nat → Except String Heap
  | none => appendChild h self newChild
  | some r =>
    match (h self).children.findIdx? (fun c => c == r) with
    | none => .error refNotFoundMsg
    | some childIndex => .ok (spliceChildren h self newChild childIndex)

end RRDocument

namespace RRElement

/-- RRElement.appendChild: push, then set both back-references to the element. -/
def appendChild (h : Heap) (self newChild : Nat) : Heap :=
  let h1 := setNode h self { h self with children := (h self).children ++ [newChild] }
  setNode h1 newChild { h1 newChild with parentNode := some self, parentElement := some self }

/-- RRElement.insertBefore: null ref delegates to appendChild; otherwise splice
at the index of the ref child (Array.indexOf, first occurrence).  The source
does not update the spliced-in child's back-references on this path. -/
def insertBefore (h : Heap) (self newChild : Nat) : Option Nat → Except String Heap
  | none => .ok (appendChild h self newChild)
  | some r =>
    match (h self).children.findIdx? (fun c => c == r) with
    | none => .error refNotFoundMsg
    | some childIndex => .ok (spliceChildren h self newChild childIndex)

end RRElement

/-- Dynamic dispatch of appendChild: RRDocument and RRElement override it; every
other variant inherits the base RRNode method, which always throws. -/
def appendChild (h : Heap) (self newChild : Nat) : Except String Heap :=
  match (h self).kind with
  | .document => RRDocument.appendChild h self newChild
  | .element => .ok (RRElement.appendChild h self newChild)
  | _ => .error appendChildUnsupportedMsg

/-- Dynamic dispatch of insertBefore: RRDocument and RRElement override it; every
other variant inherits the base RRNode method, which always throws. -/
def insertBefore (h : Heap) (self newChild : Nat) (refChild : Option Nat) :
    Except String Heap :=
  match (h self).kind with
  | .document => RRDocument.insertBefore h self newChild refChild
  | .element => RRElement.insertBefore h self newChild refChild
  | _ => .error insertBeforeUnsupportedMsg

/-- RRNode.removeChild, shared by every variant: no-op when the argument is not
found (Array.indexOf = -1); otherwise splice out the first occurrence and clear
both back-references.  Total: the source method never throws. -/
def removeChild (h : Heap) (self node : Nat) : Heap :=
  match (h self).children.findIdx? (fun c => c == node) with
  | none => h
  | some indexOfChild =>
    let h1 := setNode h self { h self with children := (h self).children.eraseIdx indexOfChild }
    setNode h1 node { h1 node with parentElement := none, parentNode := none }

/-- RRNode.contains in the rrdom module: unconditionally throws. -/
def contains (_h : Heap) (_self _node : Nat) : Except String Bool :=
  .error "Not implemented yet."


end RRDom

namespace TreeNode

/-- RRNode.contains in src/src/rrdom/tree-node.ts: returns false for every
argument, without throwing. -/
def contains (_self _node : Nat) : Bool :=
  false

end TreeNode

namespace RRDom

/-- Insert or update a key in an ordered string map (the semantics of
JavaScript object property assignment on the flat attributes record: existing
keys keep their position, new keys append). -/
def upsert (m : List (String × String)) (k v : String) : List (String × String) :=
  match m with
  | [] => [(k, v)]
  | (k1, v1) :: rest => if k1 = k then (k, v) :: rest else (k1, v1) :: upsert rest k v

/-- Remove a key from an ordered string map (JavaScript delete). -/
def eraseKey (m : List (String × String)) (k : String) : List (String × String) :=
  match m with
  | [] => []
  | (k1, v1) :: rest => if k1 = k then rest else (k1, v1) :: eraseKey rest k

/-- Read a key of an ordered string map. -/
def lookupAttr (m : List (String × String)) (k : String) : Option String :=
  match m with
  | [] => none
  | (k1, v1) :: rest => if k1 = k then some v1 else lookupAttr rest k

/-- The JavaScript String.prototype.toLowerCase primitive of the host
environment, embedded character by character. -/
def toLowerStr (s : String) : String :=
  String.mk (s.toList.map Char.toLower)

/-- The JavaScript String.prototype.trim primitive of the host environment:
strip leading and trailing whitespace. -/
def trimStr (s : String) : String :=
  String.mk (((s.toList.dropWhile Char.isWhitespace).reverse.dropWhile
    Char.isWhitespace).reverse)

/-- Split a character list at every occurrence of a separator character. -/
def splitAux (sep : Char) : List Char → List Char → List (List Char)
  | [], acc => [acc.reverse]
  | c :: cs, acc =>
    if c = sep then acc.reverse :: splitAux sep cs [] else splitAux sep cs (c :: acc)

/-- The JavaScript String.prototype.split primitive for a one-character
separator. -/
def splitOnChar (sep : Char) (s : String) : List String :=
  (splitAux sep s.toList []).map List.asString

/-- Modelled from the spec: the property-name normalizer `camelize` of the
external style collaborator (./style), which turns a kebab-case CSS property
name into the camel-case key used in the property map. -/
def camelize (s : String) : String :=
  match splitOnChar '-' s with
  | [] => ""
  | w :: ws => w ++ String.join (ws.map (fun p => p.capitalize))

/-- Inverse direction of the name normalization used when serializing the
property map back to CSS text: a camel-case key returns to kebab-case. -/
def kebabize (s : String) : String :=
  String.mk (s.toList.foldr
    (fun c acc => if c.isUpper then '-' :: c.toLower :: acc else c :: acc) [])

/-- Modelled from the spec: the external pure function
`parseCSSText : text → property map` (./style), declared out of scope by the
spec.  Declarations are separated by semicolons, each `name: value` pair is
trimmed and the name camelized; malformed fragments are dropped. -/
def parseCSSText (cssText : String) : List (String × String) :=
  (splitOnChar ';' cssText).foldl
    (fun m decl =>
      match splitOnChar ':' decl with
      | [n, v] =>
        let k := camelize (trimStr n)
        let v1 := trimStr v
        if k = "" ∨ v1 = "" then m else upsert m k v1
      | _ => m)
    []

/-- Modelled from the spec: the external pure function
`toCSSText : property map → text` (./style), mutually inverse with
`parseCSSText` on the accepted CSS subset. -/
def toCSSText (style : List (String × String)) : String :=
  String.join (style.map (fun kv => kebabize kv.1 ++ ": " ++ kv.2 ++ ";"))

namespace RRElement

/-- The read direction of the RRElement.style getter: if the style attribute is
present and truthy it is parsed into a property map, otherwise the map is
empty. -/
def style (h : Heap) (self : Nat) : List (String × String) :=
  match lookupAttr (h self).attributes "style" with
  | some s => if s = "" then [] else parseCSSText s
  | none => []

/-- The setProperty operation carried by the returned style map: normalize the
name, delete the key when the value is falsy (the empty string stands for both
null and the empty string) otherwise set it, then re-serialize the whole map
into the style attribute. -/
def setProperty (h : Heap) (self : Nat) (nm value : String) : Heap :=
  let st := style h self
  let normalizedName := camelize nm
  let st1 := if value = "" then eraseKey st normalizedName else upsert st normalizedName value
  setNode h self { h self with attributes := upsert (h self).attributes "style" (toCSSText st1) }

end RRElement

/-- DOM nodeType constants of the live environment (document.DOCUMENT_NODE and
friends), used by buildFromDom to build its NodeTypeMap. -/
def ELEMENT_NODE : Nat := 1

def TEXT_NODE : Nat := 3

def CDATA_SECTION_NODE : Nat := 4

def COMMENT_NODE : Nat := 8

def DOCUMENT_NODE : Nat := 9

def DOCUMENT_TYPE_NODE : Nat := 10

/-- The NodeTypeMap record built at the top of buildFromDom: live DOM nodeType
constants to rrweb-snapshot NodeType values; reading an absent entry yields
undefined, modelled as `none`. -/
def NodeTypeMap (domNodeType : Nat) : Option Nat :=
  if domNodeType = DOCUMENT_NODE then some NodeType.Document
  else if domNodeType = DOCUMENT_TYPE_NODE then some NodeType.DocumentType
  else if domNodeType = ELEMENT_NODE then some NodeType.Element
  else if domNodeType = TEXT_NODE then some NodeType.Text
  else if domNodeType = CDATA_SECTION_NODE then some NodeType.CDATA
  else if domNodeType = COMMENT_NODE then some NodeType.Comment
  else none

/-- One node of the live tree handed to buildFromDom.  `isForm` models the
`instanceof HTMLFormElement` test of getValidTagName; `sn` is the node's
attached serialized record (absent when the node was never stamped). -/
inductive LiveTree where
  | mk (domNodeType : Nat) (tagName : String) (isForm : Bool)
      (attributes : List (String × String)) (textContent : String)
      (sn : Option SN) (childNodes : List LiveTree)

def LiveTree.sn : LiveTree → Option SN
  | .mk _ _ _ _ _ s _ => s

def LiveTree.childNodes : LiveTree → List LiveTree
  | .mk _ _ _ _ _ _ ch => ch

/-- getValidTagName: a live form element always reports the tag `form`;
otherwise the native tag name is lowercased and trimmed. -/
def getValidTagName (isForm : Bool) (tagName : String) : String :=
  if isForm then "form" else trimStr (toLowerStr tagName)

/-- Lookup in the Mirror Table (Map.get). -/
def mirrorGet (m : List (Int × Nat)) (i : Int) : Option Nat :=
  match m with
  | [] => none
  | p :: rest => if p.1 = i then some p.2 else mirrorGet rest i

/-- Map.set on the Mirror Table: replace the binding of an existing key, append
a new key. -/
def mirrorSet (m : List (Int × Nat)) (i : Int) (addr : Nat) : List (Int × Nat) :=
  match m with
  | [] => [(i, addr)]
  | p :: rest => if p.1 = i then (i, addr) :: rest else p :: mirrorSet rest i addr

/-- JavaScript truthiness of an optional numeric field: present and nonzero. -/
def truthyInt : Option Int → Bool
  | none => false
  | some v => v != 0

/-- The mutable state threaded through one buildFromDom call: the
notSerializedId counter local to the call, the document's Mirror Table, the
object graph, and the next free address for allocating a new virtual node. -/
structure WalkState where
  notSerializedId : Int
  mirror : List (Int × Nat)
  heap : Heap
  nextAddr : Nat

/-- Allocate a fresh virtual node (a constructor call of one of the RR classes)
and return its address. -/
def allocNode (st : WalkState) (d : RRNodeData) : WalkState × Nat :=
  ({ st with heap := setNode st.heap st.nextAddr d, nextAddr := st.nextAddr + 1 }, st.nextAddr)

/-- Step 1 of the walk: read the live node's serialized record, or create one
carrying the next generated id, decrement the counter and stamp it onto the
live node (the stamp is reflected in the output tree the walk returns). -/
def stampStep (domNodeType : Nat) (sn0 : Option SN) (st : WalkState) : SN × WalkState :=
  match sn0 with
  | some s => (s, st)
  | none =>
    ({ type := NodeTypeMap domNodeType, textContent := "", id := st.notSerializedId },
     { st with notSerializedId := st.notSerializedId - 1 })

/-- The switch of the walk's create branch: build the virtual node of the
variant matching the live node's kind, through the document's factory methods.
`none` models the default branch, which silently skips the node.  For a
document-kind live node with a truthy rootId a fresh nested RRDocument is
created (the second conjunct of the source condition compares the record
object with a number and always holds); otherwise the virtual node is the
RRDocument running the walk itself. -/
def createRRNode (docAddr : Nat) (st : WalkState) (domNodeType : Nat) (tagName : String)
    (isForm : Bool) (attributes : List (String × String)) (textContent : String) (sn : SN) :
    Option (WalkState × Nat) :=
  if domNodeType = DOCUMENT_NODE then
    if truthyInt sn.rootId then some (allocNode st { kind := .document })
    else some (st, docAddr)
  else if domNodeType = DOCUMENT_TYPE_NODE then
    some (allocNode st { kind := .documentType, name := tagName })
  else if domNodeType = ELEMENT_NODE then
    some (allocNode st
      { kind := .element, tagName := getValidTagName isForm tagName,
        attributes := attributes.foldl (fun m kv => upsert m kv.1 kv.2) [] })
  else if domNodeType = TEXT_NODE then
    some (allocNode st { kind := .text, textContent := textContent })
  else if domNodeType = CDATA_SECTION_NODE then
    some (allocNode st { kind := .cdataSection, data := "" })
  else if domNodeType = COMMENT_NODE then
    some (allocNode st { kind := .comment, data := textContent })
  else none

/-- The walk's attach step: resolve the live parent's virtual counterpart in
the Mirror Table and append the current virtual node to it, then set the
back-references.  A missing parent mapping is the TypeError the source raises
when calling a method of undefined; appendChild itself may raise the duplicate
root error. -/
def attachStep (st : WalkState) (addr : Nat) : Option SN → Except String WalkState
  | none => .ok st
  | some psn =>
    match mirrorGet st.mirror psn.id with
    | none => .error "TypeError: the parent RRNode is not registered in the mirror"
    | some parentAddr =>
      match appendChild st.heap parentAddr addr with
      | .error e => .error e
      | .ok h2 =>
        let pe := if (h2 parentAddr).kind = .element then some parentAddr else none
        let d := { h2 addr with parentNode := some parentAddr, parentElement := pe }
        .ok { st with heap := setNode h2 addr d }

/-- Steps 2 and 3 of the walk, between stamping and attaching: if the Mirror
Table already holds a virtual node for this id, reuse it after stripping its
parent links and children; otherwise run the creation switch and, unless the
node kind is unmapped, stamp the serialized record onto the new virtual node
and register it in the Mirror Table.  `none` propagates the silent skip. -/
def resolveStep (docAddr : Nat) (st1 : WalkState) (domNodeType : Nat) (tagName : String)
    (isForm : Bool) (attributes : List (String × String)) (textContent : String) (sn : SN) :
    Option (WalkState × Nat) :=
  match mirrorGet st1.mirror sn.id with
  | some addr =>
    let d := { st1.heap addr with parentElement := none, parentNode := none, children := [] }
    some ({ st1 with heap := setNode st1.heap addr d }, addr)
  | none =>
    match createRRNode docAddr st1 domNodeType tagName isForm attributes textContent sn with
    | none => none
    | some (st2, addr) =>
      some ({ st2 with
        heap := setNode st2.heap addr { st2.heap addr with sn := some sn },
        mirror := mirrorSet st2.mirror sn.id addr }, addr)

mutual

/-- The recursive walk of RRDocument.buildFromDom.  The returned LiveTree is
the input live tree with the id stamps the walk wrote into it; the returned
WalkState carries the rebuilt virtual tree. -/
def walk (docAddr : Nat) (node : LiveTree) (parentSn : Option SN) (st : WalkState) :
    Except String (WalkState × LiveTree) :=
  match node with
  | .mk domNodeType tagName isForm attributes textContent sn0 childNodes =>
    match stampStep domNodeType sn0 st with
    | (sn, st1) =>
      match resolveStep docAddr st1 domNodeType tagName isForm attributes textContent sn with
      | none => .ok (st1, .mk domNodeType tagName isForm attributes textContent (some sn) childNodes)
      | some (st3, addr) =>
        match attachStep st3 addr parentSn with
        | .error e => .error e
        | .ok st4 =>
          if sn.type = some NodeType.Document ∨ sn.type = some NodeType.Element then
            match walkList docAddr childNodes (some sn) st4 with
            | .error e => .error e
            | .ok (st5, childNodes2) =>
              .ok (st5, .mk domNodeType tagName isForm attributes textContent (some sn) childNodes2)
          else
            .ok (st4, .mk domNodeType tagName isForm attributes textContent (some sn) childNodes)
termination_by structural node

/-- node.childNodes.forEach(walk). -/
def walkList (docAddr : Nat) (nodes : List LiveTree) (parentSn : Option SN) (st : WalkState) :
    Except String (WalkState × List LiveTree) :=
  match nodes with
  | [] => .ok (st, [])
  | n :: rest =>
    match walk docAddr n parentSn st with
    | .error e => .error e
    | .ok (st1, n2) =>
      match walkList docAddr rest parentSn st1 with
      | .error e => .error e
      | .ok (st2, rest2) => .ok (st2, n2 :: rest2)
termination_by structural nodes

end

/-- RRDocument.buildFromDom: destroyTree (discard the document's children and
clear the Mirror Table), then walk the live root with the call-local counter
notSerializedId starting at -1.  `nextAddr` is the embedding's supply of fresh
addresses for the virtual nodes the walk allocates. -/
def buildFromDom (h : Heap) (docAddr nextAddr : Nat) (dom : LiveTree) :
    Except String (WalkState × LiveTree) :=
  let h0 := setNode h docAddr { h docAddr with children := [] }
  walk docAddr dom none
    { notSerializedId := -1, mirror := [], heap := h0, nextAddr := nextAddr }

/-! Derived observers used by the statements below. -/

/-- Number of children of `d` whose records carry the given kind. -/
def kindCount (h : Heap) (d : Nat) (k : NodeKind) : Nat :=
  ((h d).children.filter (fun c => (h c).kind == k)).length

/-- The document root constraint: at most one Element-kind child and at most
one DocumentType-kind child. -/
def docRootOk (h : Heap) (d : Nat) : Prop :=
  kindCount h d .element ≤ 1 ∧ kindCount h d .documentType ≤ 1

/-- Extract the heap from a mutation result, keeping a fallback heap when the
operation raised (the caller that catches the exception observes the tree
exactly as it was, since every check precedes every mutation). -/
def getOk (e : Except String Heap) (fallback : Heap) : Heap :=
  match e with
  | .ok h => h
  | .error _ => fallback

/-- A sequence of attach attempts on one document, each via appendChild; a
raising attempt leaves the tree as it was. -/
def attachAll (h : Heap) (d : Nat) (cs : List Nat) : Heap :=
  cs.foldl (fun h1 c => getOk (appendChild h1 d c) h1) h

/-- Fallback state used by the result extractors below. -/
def wsDefault : WalkState :=
  { notSerializedId := 0, mirror := [], heap := fun _ => { kind := .text }, nextAddr := 0 }

/-- Extract the final walk state of a successful buildFromDom run. -/
def okWS (e : Except String (WalkState × LiveTree)) : WalkState :=
  match e with
  | .ok p => p.1
  | .error _ => wsDefault

/-- Extract the stamped live tree of a successful buildFromDom run. -/
def okTree (e : Except String (WalkState × LiveTree)) (fallback : LiveTree) : LiveTree :=
  match e with
  | .ok p => p.2
  | .error _ => fallback

mutual

/-- The sequence of ids that one walk generated and stamped, in visit order:
the first argument is the live tree as handed to the walk and the second the
stamped tree the walk returned; a node contributes its stamped id exactly when
it arrived without a serialized record.  Children of nodes the walk did not
recurse into are returned unchanged and contribute nothing. -/
def genIds : LiveTree → LiveTree → List Int
  | .mk _ _ _ _ _ sn0 ch0, .mk _ _ _ _ _ sn1 ch1 =>
    (match sn0, sn1 with
     | none, some s => [s.id]
     | _, _ => []) ++ genIdsList ch0 ch1
termination_by structural t _ => t

def genIdsList : List LiveTree → List LiveTree → List Int
  | t :: ts, u :: us => genIds t u ++ genIdsList ts us
  | _, _ => []
termination_by structural ts _ => ts

end

/-- The run of consecutive descending integers `a, a-1, ..., b+1` (empty when
`a ≤ b`): the values the notSerializedId counter hands out while moving from
`a` down to `b`. -/
def decList (a b : Int) : List Int :=
  if h : b < a then a :: decList (a - 1) b else []
termination_by (a - b).toNat
decreasing_by omega

/-! Basic lemmas about the heap and the kind discriminant. -/

theorem setNode_same (h : Heap) (i : Nat) (d : RRNodeData) : setNode h i d i = d := by
  simp [setNode]

theorem setNode_other (h : Heap) (i j : Nat) (d : RRNodeData) (hne : j ≠ i) :
    setNode h i d j = h j := by
  simp [setNode, hne]

theorem nodeType_inj (k1 k2 : NodeKind) : nodeType k1 = nodeType k2 ↔ k1 = k2 := by
  cases k1 <;> cases k2 <;> decide

theorem appendChild_document (h : Heap) (s c : Nat) (hk : (h s).kind = .document) :
    appendChild h s c = RRDocument.appendChild h s c := by
  unfold appendChild
  rw [hk]

theorem appendChild_element (h : Heap) (s c : Nat) (hk : (h s).kind = .element) :
    appendChild h s c = .ok (RRElement.appendChild h s c) := by
  unfold appendChild
  rw [hk]

theorem insertBefore_document (h : Heap) (s c : Nat) (ref : Option Nat)
    (hk : (h s).kind = .document) :
    insertBefore h s c ref = RRDocument.insertBefore h s c ref := by
  unfold insertBefore
  rw [hk]

theorem insertBefore_element (h : Heap) (s c : Nat) (ref : Option Nat)
    (hk : (h s).kind = .element) :
    insertBefore h s c ref = RRElement.insertBefore h s c ref := by
  unfold insertBefore
  rw [hk]

theorem appendOn_self_children (h : Heap) (s c : Nat) :
    ((appendOn h s c) s).children = (h s).children ++ [c] := by
  by_cases hcs : s = c <;> simp [appendOn, setNode, hcs]

theorem appendOn_child_parents (h : Heap) (s c : Nat) :
    ((appendOn h s c) c).parentNode = some s ∧ ((appendOn h s c) c).parentElement = none := by
  by_cases hcs : c = s <;> simp [appendOn, setNode, hcs]

theorem appendOn_kind (h : Heap) (s c x : Nat) : ((appendOn h s c) x).kind = (h x).kind := by
  simp only [appendOn, setNode]
  split_ifs <;> simp_all

theorem appendOn_other (h : Heap) (s c x : Nat) (hxs : x ≠ s) (hxc : x ≠ c) :
    (appendOn h s c) x = h x := by
  simp [appendOn, setNode, hxs, hxc]

theorem spliceChildren_self_children (h : Heap) (s c i : Nat) :
    ((spliceChildren h s c i) s).children =
      (h s).children.take i ++ c :: (h s).children.drop i := by
  simp [spliceChildren, setNode]

theorem spliceChildren_other (h : Heap) (s c i x : Nat) (hxs : x ≠ s) :
    (spliceChildren h s c i) x = h x := by
  simp [spliceChildren, setNode, hxs]

/-- A heap whose every address holds a detached text node, used as the blank
slate of the concrete scenarios below. -/
def baseHeap : Heap := fun _ => { kind := .text }

/-- C4: for every node of variant Text, Comment, CDATASection, or DocumentType
and every argument node, appendChild raises the Unsupported-operation error;
the error is raised before anything is assigned, so the receiver and the
argument are left completely unchanged (the error result carries no heap). -/
theorem appendChild_unsupported_on_leaf_kinds (h : Heap) (self c : Nat)
    (hk : (h self).kind = .text ∨ (h self).kind = .comment ∨
      (h self).kind = .cdataSection ∨ (h self).kind = .documentType) :
    appendChild h self c = .error appendChildUnsupportedMsg := by
  unfold appendChild
  rcases hk with hk | hk | hk | hk <;> rw [hk]

theorem appendChild_unsupported_on_leaf_kinds_witness :
    (baseHeap 5).kind = .text ∧
    appendChild baseHeap 5 0 = .error appendChildUnsupportedMsg :=
  ⟨rfl, appendChild_unsupported_on_leaf_kinds baseHeap 5 0 (Or.inl rfl)⟩

/-- C7: removeChild never raises (in the embedding it is a total heap
transformer, mirroring the source method which contains no throw): when the
argument is not a current child the heap is returned unchanged; when it is a
current child, its first occurrence (Array.indexOf) is spliced out and the
removed node's parentNode and parentElement are cleared, every other node
staying untouched. -/
theorem removeChild_spec (h : Heap) (self c : Nat) :
    (c ∉ (h self).children → removeChild h self c = h) ∧
    ∀ i, (h self).children.findIdx? (fun x => x == c) = some i →
      ((removeChild h self c) self).children = (h self).children.eraseIdx i ∧
      ((removeChild h self c) c).parentNode = none ∧
      ((removeChild h self c) c).parentElement = none ∧
      ∀ x, x ≠ self → x ≠ c → (removeChild h self c) x = h x := by
  constructor
  · intro hmem
    have hnone : (h self).children.findIdx? (fun x => x == c) = none := by
      rw [List.findIdx?_eq_none_iff]
      intro x hx
      simp only [beq_eq_false_iff_ne, ne_eq]
      intro hxc
      exact hmem (hxc ▸ hx)
    unfold removeChild
    rw [hnone]
  · intro i hi
    unfold removeChild
    rw [hi]
    refine ⟨?_, ?_, ?_, ?_⟩
    · by_cases hcs : self = c <;> simp [setNode, hcs]
    · simp [setNode]
    · simp [setNode]
    · intro x hxs hxc
      simp [setNode, hxs, hxc]

/-- A heap holding an element at address 0 whose children are the elements 1
and 2, with consistent back-references. -/
def hRemove : Heap :=
  setNode (setNode (setNode baseHeap 0
    { kind := .element, tagName := "div", children := [1, 2] })
    1 { kind := .element, tagName := "a", parentNode := some 0, parentElement := some 0 })
    2 { kind := .element, tagName := "b", parentNode := some 0, parentElement := some 0 }

theorem removeChild_spec_witness :
    (removeChild baseHeap 9 4 = baseHeap) ∧
    ((removeChild hRemove 0 1) 0).children = [2] ∧
    ((removeChild hRemove 0 1) 1).parentNode = none ∧
    ((removeChild hRemove 0 1) 1).parentElement = none :=
  ⟨(removeChild_spec baseHeap 9 4).1 (by decide),
   (removeChild_spec hRemove 0 1).2 0 (by rfl) |>.1,
   (removeChild_spec hRemove 0 1).2 0 (by rfl) |>.2.1,
   (removeChild_spec hRemove 0 1).2 0 (by rfl) |>.2.2.1⟩

/-- C9: in the rrdom module, contains always raises the not-implemented error
for every receiver and argument; but in the earlier tree-node.ts variant of
the same class, contains silently returns false for every input and never
raises, diverging from the claim (and from the spec's error-handling design). -/
theorem contains_raises_vs_treeNode_returns_false :
    (∀ (h : Heap) (s n : Nat), contains h s n = Except.error "Not implemented yet.") ∧
    TreeNode.contains 0 1 = false :=
  ⟨fun _ _ _ => rfl, rfl⟩

/-- C5: on an Element or Document target, insertBefore with a null reference
behaves exactly as appendChild; with a reference that is not a current child it
raises the reference-not-found error (the error result carries no heap, so the
children are untouched); with a reference that is a current child, the new
node is spliced in immediately before the first occurrence of the reference,
every other node of the heap unchanged. -/
theorem insertBefore_spec (h : Heap) (s c r : Nat)
    (hk : (h s).kind = .document ∨ (h s).kind = .element) :
    (insertBefore h s c none = appendChild h s c) ∧
    (r ∉ (h s).children → insertBefore h s c (some r) = .error refNotFoundMsg) ∧
    ∀ i, (h s).children.findIdx? (fun x => x == r) = some i →
      ∃ h2, insertBefore h s c (some r) = .ok h2 ∧
        (h2 s).children = (h s).children.take i ++ c :: (h s).children.drop i ∧
        ∀ x, x ≠ s → h2 x = h x := by
  have hnone : r ∉ (h s).children →
      (h s).children.findIdx? (fun x => x == r) = none := by
    intro hmem
    rw [List.findIdx?_eq_none_iff]
    intro x hx
    simp only [beq_eq_false_iff_ne, ne_eq]
    intro hxr
    exact hmem (hxr ▸ hx)
  refine ⟨?_, ?_, ?_⟩
  · rcases hk with hk | hk
    · rw [insertBefore_document h s c none hk, appendChild_document h s c hk]
      rfl
    · rw [insertBefore_element h s c none hk, appendChild_element h s c hk]
      rfl
  · intro hmem
    rcases hk with hk | hk
    · rw [insertBefore_document h s c (some r) hk]
      simp only [RRDocument.insertBefore]
      rw [hnone hmem]
    · rw [insertBefore_element h s c (some r) hk]
      simp only [RRElement.insertBefore]
      rw [hnone hmem]
  · intro i hi
    rcases hk with hk | hk
    · rw [insertBefore_document h s c (some r) hk]
      simp only [RRDocument.insertBefore]
      rw [hi]
      exact ⟨_, rfl, spliceChildren_self_children h s c i,
        fun x hx => spliceChildren_other h s c i x hx⟩
    · rw [insertBefore_element h s c (some r) hk]
      simp only [RRElement.insertBefore]
      rw [hi]
      exact ⟨_, rfl, spliceChildren_self_children h s c i,
        fun x hx => spliceChildren_other h s c i x hx⟩

/-- An element at address 0 holding the single child 1 (an element), with a
detached element at 2, as produced by one appendChild call. -/
def hOrder : Heap :=
  setNode (setNode (setNode baseHeap 0 { kind := .element, tagName := "div" })
    1 { kind := .element, tagName := "a" })
    2 { kind := .element, tagName := "b" }

def hOrder1 : Heap := RRElement.appendChild hOrder 0 1

theorem insertBefore_spec_witness :
    (insertBefore hOrder1 0 2 none = appendChild hOrder1 0 2) ∧
    (insertBefore hOrder1 0 2 (some 9) = .error refNotFoundMsg) ∧
    ∃ h2, insertBefore hOrder1 0 2 (some 1) = .ok h2 ∧
      (h2 0).children = [2, 1] :=
  ⟨(insertBefore_spec hOrder1 0 2 9 (Or.inr rfl)).1,
   (insertBefore_spec hOrder1 0 2 9 (Or.inr rfl)).2.1 (by decide),
   match (insertBefore_spec hOrder1 0 2 1 (Or.inr rfl)).2.2 0 (by rfl) with
   | ⟨h2, he, hch, _⟩ => ⟨h2, he, by rw [hch]; rfl⟩⟩

/-- C2 counterexample: one insertBefore call with a non-null reference places
the new node in the container's children but leaves the new node's parentNode
and parentElement at null, so a node currently in a container's children list
does not point back at its container. -/
theorem insertBefore_leaves_backrefs_stale :
    (insertBefore hOrder1 0 2 (some 1)).isOk = true ∧
    ((getOk (insertBefore hOrder1 0 2 (some 1)) baseHeap) 0).children = [2, 1] ∧
    ((getOk (insertBefore hOrder1 0 2 (some 1)) baseHeap) 2).parentNode = none ∧
    ((getOk (insertBefore hOrder1 0 2 (some 1)) baseHeap) 2).parentElement = none :=
  ⟨rfl, rfl, rfl, rfl⟩

/-- C2 amended: the children order always matches the operations performed
(appendChild places at the end, insertBefore splices immediately before the
first occurrence of the reference child, removeChild deletes the first
occurrence of the child); appendChild on Elements and Documents and
removeChild keep the affected node's parentNode and parentElement
back-references in sync with its container, but insertBefore with a non-null
reference does not touch the inserted node's back-references, which can
therefore disagree with the container actually holding it. -/
theorem children_order_and_backrefs (h : Heap) (s c r : Nat) :
    (((RRElement.appendChild h s c) s).children = (h s).children ++ [c] ∧
      ((RRElement.appendChild h s c) c).parentNode = some s ∧
      ((RRElement.appendChild h s c) c).parentElement = some s) ∧
    (∀ h2, RRDocument.appendChild h s c = .ok h2 →
      (h2 s).children = (h s).children ++ [c] ∧
      (h2 c).parentNode = some s ∧ (h2 c).parentElement = none) ∧
    (∀ i, (h s).children.findIdx? (fun x => x == r) = some i → c ≠ s →
      ∃ h2, RRElement.insertBefore h s c (some r) = .ok h2 ∧
        (h2 s).children = (h s).children.take i ++ c :: (h s).children.drop i ∧
        h2 c = h c) ∧
    ∀ j, (h s).children.findIdx? (fun x => x == c) = some j →
      ((removeChild h s c) s).children = (h s).children.eraseIdx j ∧
      ((removeChild h s c) c).parentNode = none ∧
      ((removeChild h s c) c).parentElement = none := by
  refine ⟨⟨?_, ?_, ?_⟩, ?_, ?_, ?_⟩
  · unfold RRElement.appendChild
    by_cases hcs : s = c
    · subst hcs
      simp [setNode]
    · simp [setNode, hcs]
  · unfold RRElement.appendChild
    simp [setNode]
  · unfold RRElement.appendChild
    simp [setNode]
  · intro h2 hok
    unfold RRDocument.appendChild at hok
    split_ifs at hok <;>
      · simp only [Except.ok.injEq] at hok
        subst hok
        exact ⟨appendOn_self_children h s c, (appendOn_child_parents h s c).1,
          (appendOn_child_parents h s c).2⟩
  · intro i hi hcs
    simp only [RRElement.insertBefore]
    rw [hi]
    exact ⟨_, rfl, spliceChildren_self_children h s c i, spliceChildren_other h s c i c hcs⟩
  · intro j hj
    unfold removeChild
    rw [hj]
    refine ⟨?_, ?_, ?_⟩
    · by_cases hcs : s = c <;> simp [setNode, hcs]
    · simp [setNode]
    · simp [setNode]

theorem children_order_and_backrefs_witness :
    ((RRElement.appendChild hOrder 0 1) 0).children = [1] ∧
    ((RRElement.appendChild hOrder 0 1) 1).parentNode = some 0 ∧
    (∃ h2, RRElement.insertBefore hOrder1 0 2 (some 1) = .ok h2 ∧
      (h2 0).children = [2, 1] ∧ h2 2 = hOrder1 2) ∧
    ((removeChild hOrder1 0 1) 0).children = [] :=
  ⟨by rw [(children_order_and_backrefs hOrder 0 1 9).1.1]; rfl,
   (children_order_and_backrefs hOrder 0 1 9).1.2.1,
   match (children_order_and_backrefs hOrder1 0 2 1).2.2.1 0 (by rfl) (by decide) with
   | ⟨h2, he, hch, hc⟩ => ⟨h2, he, by rw [hch]; rfl, hc⟩,
   by rw [((children_order_and_backrefs hOrder1 0 1 9).2.2.2 0 (by rfl)).1]; rfl⟩

/-! Lemmas relating the nodeType discriminant comparisons performed by
RRDocument.appendChild to the kinds themselves. -/

theorem beq_nodeType_element (k : NodeKind) :
    (nodeType k == NodeType.Element) = true ↔ k = .element := by
  cases k <;> decide

theorem beq_nodeType_documentType (k : NodeKind) :
    (nodeType k == NodeType.DocumentType) = true ↔ k = .documentType := by
  cases k <;> decide

theorem nodeType_eq_element (k : NodeKind) :
    nodeType k = NodeType.Element ↔ k = .element := by
  cases k <;> decide

theorem nodeType_eq_documentType (k : NodeKind) :
    nodeType k = NodeType.DocumentType ↔ k = .documentType := by
  cases k <;> decide

theorem any_beq_element_iff (h : Heap) (l : List Nat) :
    (l.any (fun s => nodeType (h s).kind == NodeType.Element) = true) ↔
      ∃ x ∈ l, (h x).kind = .element := by
  rw [List.any_eq_true]
  exact exists_congr (fun x => and_congr_right (fun _ => beq_nodeType_element _))

theorem any_beq_documentType_iff (h : Heap) (l : List Nat) :
    (l.any (fun s => nodeType (h s).kind == NodeType.DocumentType) = true) ↔
      ∃ x ∈ l, (h x).kind = .documentType := by
  rw [List.any_eq_true]
  exact exists_congr (fun x => and_congr_right (fun _ => beq_nodeType_documentType _))

theorem rrdoc_append_error_iff_aux (h : Heap) (d c : Nat) :
    (∃ e, RRDocument.appendChild h d c = .error e) ↔
      ((nodeType (h c).kind = NodeType.Element ∨
        nodeType (h c).kind = NodeType.DocumentType) ∧
       (h d).children.any (fun s => nodeType (h s).kind == nodeType (h c).kind) = true) := by
  unfold RRDocument.appendChild
  split_ifs with h1 h2
  · simp [h1, h2]
  · simp [h1, h2]
  · simp [h1]

/-- C10: RRDocument.appendChild raises exactly when the child is Element-kind
and an Element-kind child is already present, or the child is
DocumentType-kind and a DocumentType-kind child is already present; every
Text, Comment or CDATASection child is appended unconditionally, however many
children of those kinds the document already holds. -/
theorem rrdocument_appendChild_error_iff (h : Heap) (d c : Nat)
    (hd : (h d).kind = .document) :
    ((∃ e, appendChild h d c = .error e) ↔
      ((h c).kind = .element ∧ ∃ x ∈ (h d).children, (h x).kind = .element) ∨
      ((h c).kind = .documentType ∧ ∃ x ∈ (h d).children, (h x).kind = .documentType)) ∧
    (((h c).kind = .text ∨ (h c).kind = .comment ∨ (h c).kind = .cdataSection) →
      ∃ h2, appendChild h d c = .ok h2 ∧ (h2 d).children = (h d).children ++ [c]) := by
  rw [appendChild_document h d c hd]
  constructor
  · rw [rrdoc_append_error_iff_aux h d c]
    constructor
    · rintro ⟨h1 | h1, h2⟩
      · have hke := (nodeType_eq_element _).mp h1
        rw [hke] at h2
        exact Or.inl ⟨hke, (any_beq_element_iff h _).mp h2⟩
      · have hkd := (nodeType_eq_documentType _).mp h1
        rw [hkd] at h2
        exact Or.inr ⟨hkd, (any_beq_documentType_iff h _).mp h2⟩
    · rintro (⟨hke, hex⟩ | ⟨hkd, hex⟩)
      · refine ⟨Or.inl ((nodeType_eq_element _).mpr hke), ?_⟩
        rw [hke]
        exact (any_beq_element_iff h _).mpr hex
      · refine ⟨Or.inr ((nodeType_eq_documentType _).mpr hkd), ?_⟩
        rw [hkd]
        exact (any_beq_documentType_iff h _).mpr hex
  · intro hkc3
    have hcond : ¬(nodeType (h c).kind = NodeType.Element ∨
        nodeType (h c).kind = NodeType.DocumentType) := by
      rcases hkc3 with hx | hx | hx <;> rw [hx] <;> decide
    unfold RRDocument.appendChild
    rw [if_neg hcond]
    exact ⟨_, rfl, appendOn_self_children h d c⟩

/-- A document at address 0 (no children yet) with an element at 1 and a text
node at 2. -/
def hDocFix : Heap :=
  setNode (setNode (setNode baseHeap 0 { kind := .document })
    1 { kind := .element, tagName := "html" })
    2 { kind := .text, textContent := "x" }

theorem rrdocument_appendChild_error_iff_witness :
    (∃ h2, appendChild hDocFix 0 2 = .ok h2 ∧
      (h2 0).children = (hDocFix 0).children ++ [2]) ∧
    ¬∃ e, appendChild hDocFix 0 1 = .error e :=
  ⟨(rrdocument_appendChild_error_iff hDocFix 0 2 rfl).2 (Or.inl rfl),
   fun hex => absurd ((rrdocument_appendChild_error_iff hDocFix 0 1 rfl).1.mp hex)
     (by decide)⟩

/-- A document at address 0 with detached elements at 1 and 2. -/
def hC1 : Heap :=
  setNode (setNode (setNode baseHeap 0 { kind := .document })
    1 { kind := .element, tagName := "html" })
    2 { kind := .element, tagName := "div" }

def hC1a : Heap := getOk (appendChild hC1 0 1) baseHeap

/-- C1 counterexample: after one legal appendChild of an element, one
insertBefore call with a non-null reference succeeds and attaches a second
Element-kind child to the document, so the sequence appendChild followed by
insertBefore violates the at-most-one-Element invariant without any error
being raised. -/
theorem rrdocument_insertBefore_bypasses_root_constraint :
    kindCount hC1a 0 .element = 1 ∧
    (insertBefore hC1a 0 2 (some 1)).isOk = true ∧
    kindCount (getOk (insertBefore hC1a 0 2 (some 1)) baseHeap) 0 .element = 2 :=
  ⟨rfl, rfl, rfl⟩

theorem kindCount_appendOn (h : Heap) (d c : Nat) (k : NodeKind) :
    kindCount (appendOn h d c) d k =
      kindCount h d k + (if (h c).kind = k then 1 else 0) := by
  unfold kindCount
  rw [appendOn_self_children, List.filter_append]
  have hcg : List.filter (fun x => ((appendOn h d c) x).kind == k) (h d).children
      = List.filter (fun x => (h x).kind == k) (h d).children :=
    List.filter_congr (fun x _ => by rw [appendOn_kind])
  rw [hcg, List.length_append]
  have hk2 : ((appendOn h d c) c).kind = (h c).kind := appendOn_kind h d c c
  by_cases hck : (h c).kind = k
  · have hbt : (((appendOn h d c) c).kind == k) = true := by rw [hk2]; exact beq_iff_eq.mpr hck
    simp [List.filter, hbt, hck]
  · have hbf : (((appendOn h d c) c).kind == k) = false := by
      rw [hk2]
      exact beq_eq_false_iff_ne.mpr hck
    simp [List.filter, hbf, hck]

theorem kindCount_zero_of_any_false (h : Heap) (d : Nat) (k : NodeKind)
    (hany : (h d).children.any (fun s => nodeType (h s).kind == nodeType k) = false) :
    kindCount h d k = 0 := by
  unfold kindCount
  rw [List.length_eq_zero, List.filter_eq_nil_iff]
  intro a ha
  have h2 := (List.any_eq_false.mp hany) a ha
  simp only [beq_iff_eq] at h2 ⊢
  intro hk2
  exact h2 ((nodeType_inj _ _).mpr hk2)

theorem docRootOk_step (h : Heap) (d c : Nat) (hd : (h d).kind = .document)
    (hinv : docRootOk h d) : docRootOk (getOk (appendChild h d c) h) d := by
  rw [appendChild_document h d c hd]
  unfold RRDocument.appendChild
  split_ifs with h1 h2
  · exact hinv
  · show docRootOk (appendOn h d c) d
    rcases h1 with h1 | h1
    · have hke : (h c).kind = .element := (nodeType_eq_element _).mp h1
      have hany : ((h d).children.any
          fun s => nodeType (h s).kind == nodeType NodeKind.element) = false := by
        rw [hke] at h2
        simpa using h2
      constructor
      · rw [kindCount_appendOn, kindCount_zero_of_any_false h d .element hany]
        simp [hke]
      · rw [kindCount_appendOn]
        simpa [hke] using hinv.2
    · have hkdt : (h c).kind = .documentType := (nodeType_eq_documentType _).mp h1
      have hany : ((h d).children.any
          fun s => nodeType (h s).kind == nodeType NodeKind.documentType) = false := by
        rw [hkdt] at h2
        simpa using h2
      constructor
      · rw [kindCount_appendOn]
        simpa [hkdt] using hinv.1
      · rw [kindCount_appendOn, kindCount_zero_of_any_false h d .documentType hany]
        simp [hkdt]
  · show docRootOk (appendOn h d c) d
    have hne : (h c).kind ≠ .element := fun hq =>
      h1 (Or.inl ((nodeType_eq_element _).mpr hq))
    have hnd : (h c).kind ≠ .documentType := fun hq =>
      h1 (Or.inr ((nodeType_eq_documentType _).mpr hq))
    constructor
    · rw [kindCount_appendOn]
      simpa [hne] using hinv.1
    · rw [kindCount_appendOn]
      simpa [hnd] using hinv.2

theorem appendChild_step_kind (h : Heap) (d c x : Nat) (hd : (h d).kind = .document) :
    ((getOk (appendChild h d c) h) x).kind = (h x).kind := by
  rw [appendChild_document h d c hd]
  unfold RRDocument.appendChild
  split_ifs
  · rfl
  · exact appendOn_kind h d c x
  · exact appendOn_kind h d c x

/-- C1 amended: over any sequence of attach attempts performed through
appendChild (equivalently insertBefore with a null reference, which delegates
to appendChild), a document satisfying the root constraint keeps satisfying
it: at most one Element-kind and at most one DocumentType-kind child, each
raising attempt leaving the children exactly as they were (the error carries
no mutation).  The original claim fails only for insertBefore with a non-null
reference, which performs no root-constraint check. -/
theorem document_root_constraint_preserved (h : Heap) (d : Nat) (cs : List Nat)
    (hd : (h d).kind = .document) (hinv : docRootOk h d) :
    docRootOk (attachAll h d cs) d := by
  induction cs generalizing h with
  | nil => exact hinv
  | cons c cs ih =>
    have hstep : attachAll h d (c :: cs) = attachAll (getOk (appendChild h d c) h) d cs := rfl
    rw [hstep]
    exact ih _ (by rw [appendChild_step_kind h d c d hd]; exact hd)
      (docRootOk_step h d c hd hinv)

theorem document_root_constraint_preserved_witness :
    docRootOk (attachAll hC1 0 [1, 2, 2]) 0 :=
  document_root_constraint_preserved hC1 0 [1, 2, 2] rfl
    (show kindCount hC1 0 .element ≤ 1 ∧ kindCount hC1 0 .documentType ≤ 1 by
      exact ⟨by decide, by decide⟩)

/-! Style projection: C8. -/

theorem lookupAttr_upsert (m : List (String × String)) (k v : String) :
    lookupAttr (upsert m k v) k = some v := by
  induction m with
  | nil => simp [upsert, lookupAttr]
  | cons p rest ih =>
    obtain ⟨k1, v1⟩ := p
    by_cases hk : k1 = k
    · simp [upsert, lookupAttr, hk]
    · simp [upsert, lookupAttr, hk, ih]

/-- An element at address 0 with no attributes at all (in particular no style
attribute). -/
def hStyle : Heap := setNode baseHeap 0 { kind := .element, tagName := "div" }

/-- C8: setProperty normalizes the property name, deletes the key when the
value is falsy and otherwise sets it, then re-serializes the whole map into
the style attribute; concretely, on an element with no prior style attribute,
setProperty of background-color to red stores the attribute text
"background-color: red;" and a subsequent style read exposes the value red
under the normalized key backgroundColor.  The parse/serialize collaborators
are the spec-modelled pure functions above, mutually inverse on this subset. -/
theorem style_setProperty_spec :
    (∀ (h : Heap) (self : Nat) (nm value : String),
      lookupAttr ((RRElement.setProperty h self nm value) self).attributes "style" =
        some (toCSSText (if value = "" then eraseKey (RRElement.style h self) (camelize nm)
          else upsert (RRElement.style h self) (camelize nm) value))) ∧
    lookupAttr ((RRElement.setProperty hStyle 0 "background-color" "red") 0).attributes "style"
      = some "background-color: red;" ∧
    lookupAttr (RRElement.style (RRElement.setProperty hStyle 0 "background-color" "red") 0)
      "backgroundColor" = some "red" := by
  refine ⟨?_, by rfl, by rfl⟩
  intro h self nm value
  simp only [RRElement.setProperty, setNode_same]
  exact lookupAttr_upsert _ _ _

/-! Arithmetic facts about the descending id run. -/

theorem decList_eq_nil (a b : Int) (hab : ¬b < a) : decList a b = [] := by
  rw [decList]
  simp [hab]

theorem decList_cons (a b : Int) (hab : b < a) : decList a b = a :: decList (a - 1) b := by
  rw [decList]
  simp [hab]

theorem decList_self (a : Int) : decList a a = [] :=
  decList_eq_nil a a (by omega)

theorem decList_mem (a b i : Int) (hi : i ∈ decList a b) : b < i ∧ i ≤ a := by
  induction a, b using decList.induct with
  | case1 a b hab ih =>
    rw [decList_cons a b hab] at hi
    rcases List.mem_cons.mp hi with hc | hc
    · omega
    · have := ih hc
      omega
  | case2 a b hab =>
    rw [decList_eq_nil a b hab] at hi
    simp at hi

theorem decList_pairwise (a b : Int) : List.Pairwise (· > ·) (decList a b) := by
  induction a, b using decList.induct with
  | case1 a b hab ih =>
    rw [decList_cons a b hab]
    exact List.Pairwise.cons (fun i hi => by have := decList_mem _ _ i hi; omega) ih
  | case2 a b hab =>
    rw [decList_eq_nil a b hab]
    exact List.Pairwise.nil

theorem decList_chain (a b : Int) : List.Chain' (· > ·) (decList a b) :=
  List.Pairwise.chain' (decList_pairwise a b)

theorem decList_nodup (a b : Int) : (decList a b).Nodup :=
  (decList_pairwise a b).imp (fun hgt => ne_of_gt hgt)

theorem decList_append (a b c : Int) (hba : b ≤ a) (hcb : c ≤ b) :
    decList a c = decList a b ++ decList b c := by
  induction a, b using decList.induct with
  | case1 a b hab ih =>
    rw [decList_cons a b hab, decList_cons a c (by omega)]
    rw [List.cons_append]
    rw [ih (by omega) hcb]
  | case2 a b hab =>
    have hba2 : a = b := by omega
    subst hba2
    rw [decList_eq_nil a a (by omega)]
    simp

mutual

theorem genIds_refl (t : LiveTree) : genIds t t = [] := by
  cases t with
  | mk a b c d e sn ch =>
    have hl := genIdsList_refl ch
    simp only [genIds, hl]
    cases sn <;> simp
termination_by structural t

theorem genIdsList_refl (ts : List LiveTree) : genIdsList ts ts = [] := by
  cases ts with
  | nil => rfl
  | cons t rest =>
    have h1 := genIds_refl t
    have h2 := genIdsList_refl rest
    simp only [genIdsList, h1, h2]
    rfl
termination_by structural ts

end

/-! State-change facts about the walk's individual steps. -/

theorem createRRNode_state (docAddr : Nat) (st : WalkState) (a1 : Nat) (b1 : String)
    (c1 : Bool) (d1 : List (String × String)) (e1 : String) (sn : SN)
    (st2 : WalkState) (addr : Nat)
    (hc : createRRNode docAddr st a1 b1 c1 d1 e1 sn = some (st2, addr)) :
    st2.notSerializedId = st.notSerializedId ∧ st2.mirror = st.mirror := by
  unfold createRRNode allocNode at hc
  split_ifs at hc <;>
    simp only [Option.some.injEq, Prod.mk.injEq] at hc <;>
    obtain ⟨h1, -⟩ := hc <;>
    rw [← h1] <;>
    exact ⟨rfl, rfl⟩

theorem resolveStep_state (docAddr : Nat) (st1 : WalkState) (a1 : Nat) (b1 : String)
    (c1 : Bool) (d1 : List (String × String)) (e1 : String) (sn : SN)
    (st3 : WalkState) (addr : Nat)
    (hr : resolveStep docAddr st1 a1 b1 c1 d1 e1 sn = some (st3, addr)) :
    st3.notSerializedId = st1.notSerializedId ∧
    (st3.mirror = st1.mirror ∨ st3.mirror = mirrorSet st1.mirror sn.id addr) := by
  unfold resolveStep at hr
  cases hm : mirrorGet st1.mirror sn.id with
  | some a2 =>
    rw [hm] at hr
    simp only [Option.some.injEq, Prod.mk.injEq] at hr
    obtain ⟨h1, -⟩ := hr
    rw [← h1]
    exact ⟨rfl, Or.inl rfl⟩
  | none =>
    rw [hm] at hr
    cases hc : createRRNode docAddr st1 a1 b1 c1 d1 e1 sn with
    | none =>
      rw [hc] at hr
      simp at hr
    | some p =>
      obtain ⟨stc, addrc⟩ := p
      rw [hc] at hr
      simp only [Option.some.injEq, Prod.mk.injEq] at hr
      obtain ⟨h1, h2⟩ := hr
      have hcs := createRRNode_state docAddr st1 a1 b1 c1 d1 e1 sn stc addrc hc
      rw [← h1]
      subst h2
      exact ⟨hcs.1, Or.inr (by rw [hcs.2])⟩

theorem attachStep_state (parentSn : Option SN) (st : WalkState) (addr : Nat)
    (st2 : WalkState) (ha : attachStep st addr parentSn = .ok st2) :
    st2.notSerializedId = st.notSerializedId ∧ st2.mirror = st.mirror := by
  cases parentSn with
  | none =>
    simp only [attachStep, Except.ok.injEq] at ha
    rw [← ha]
    exact ⟨rfl, rfl⟩
  | some psn =>
    simp only [attachStep] at ha
    cases hm : mirrorGet st.mirror psn.id with
    | none =>
      rw [hm] at ha
      simp at ha
    | some pa =>
      rw [hm] at ha
      dsimp only at ha
      cases hap : appendChild st.heap pa addr with
      | error e =>
        rw [hap] at ha
        simp at ha
      | ok h2 =>
        rw [hap] at ha
        simp only [Except.ok.injEq] at ha
        rw [← ha]
        exact ⟨rfl, rfl⟩

theorem stampStep_facts (a1 : Nat) (sn0 : Option SN) (st : WalkState) (sn : SN)
    (st1 : WalkState) (hs : stampStep a1 sn0 st = (sn, st1)) :
    st1.mirror = st.mirror ∧
    ((sn0 = none ∧ sn.id = st.notSerializedId ∧
        st1.notSerializedId = st.notSerializedId - 1) ∨
      (sn0 = some sn ∧ st1 = st)) := by
  cases sn0 with
  | none =>
    simp only [stampStep, Prod.mk.injEq] at hs
    obtain ⟨h1, h2⟩ := hs
    rw [← h2]
    exact ⟨rfl, Or.inl ⟨rfl, by rw [← h1], rfl⟩⟩
  | some s =>
    simp only [stampStep, Prod.mk.injEq] at hs
    obtain ⟨h1, h2⟩ := hs
    rw [← h2, ← h1]
    exact ⟨rfl, Or.inr ⟨rfl, rfl⟩⟩

theorem mirrorSet_keys_mem (m : List (Int × Nat)) (i x : Int) (a : Nat)
    (hx : x ∈ (mirrorSet m i a).map Prod.fst) : x ∈ m.map Prod.fst ∨ x = i := by
  induction m with
  | nil =>
    simp [mirrorSet] at hx
    exact Or.inr hx
  | cons p rest ih =>
    by_cases hp : p.1 = i
    · simp [mirrorSet, hp] at hx
      rcases hx with hx | hx
      · exact Or.inr hx
      · exact Or.inl (by simp [hx])
    · simp [mirrorSet, hp] at hx
      rcases hx with hx | hx
      · exact Or.inl (by simp [hx])
      · rcases ih (by simpa using hx) with hy | hy
        · exact Or.inl (by simp; right; simpa using hy)
        · exact Or.inr hy

theorem mirrorSet_keys_nodup (m : List (Int × Nat)) (i : Int) (a : Nat)
    (hm : (m.map Prod.fst).Nodup) : ((mirrorSet m i a).map Prod.fst).Nodup := by
  induction m with
  | nil => simp [mirrorSet]
  | cons p rest ih =>
    simp only [List.map_cons, List.nodup_cons] at hm
    by_cases hp : p.1 = i
    · simp only [mirrorSet, hp, if_true, List.map_cons, List.nodup_cons]
      exact ⟨by rw [← hp]; exact hm.1, hm.2⟩
    · simp only [mirrorSet, hp, if_false, List.map_cons, List.nodup_cons]
      refine ⟨fun hmem => ?_, ih hm.2⟩
      rcases mirrorSet_keys_mem rest i p.1 a hmem with hy | hy
      · exact hm.1 hy
      · exact hp hy



/-! The master induction over one walk: the id counter never increases, the
generated-and-stamped ids are exactly the consecutive descending run from the
starting counter value down to the final one (in visit order), and key
uniqueness of the Mirror Table is preserved. -/

mutual

theorem walk_ids (docAddr : Nat) (t : LiveTree) (p : Option SN) (st st2 : WalkState)
    (t2 : LiveTree) (hw : walk docAddr t p st = .ok (st2, t2)) :
    st2.notSerializedId ≤ st.notSerializedId ∧
    genIds t t2 = decList st.notSerializedId st2.notSerializedId ∧
    ((st.mirror.map Prod.fst).Nodup → (st2.mirror.map Prod.fst).Nodup) := by
  cases t with
  | mk a1 b1 c1 d1 e1 sn0 ch =>
    unfold walk at hw
    obtain ⟨sn, st1, hs⟩ : ∃ sn st1, stampStep a1 sn0 st = (sn, st1) :=
      ⟨(stampStep a1 sn0 st).1, (stampStep a1 sn0 st).2, rfl⟩
    rw [hs] at hw
    dsimp only at hw
    have hsf := stampStep_facts a1 sn0 st sn st1 hs
    have hc1 : st1.notSerializedId ≤ st.notSerializedId := by
      rcases hsf.2 with ⟨-, -, hq⟩ | ⟨-, hq⟩
      · omega
      · rw [hq]
    cases hr : resolveStep docAddr st1 a1 b1 c1 d1 e1 sn with
    | none =>
      rw [hr] at hw
      simp only [Except.ok.injEq, Prod.mk.injEq] at hw
      obtain ⟨hw1, hw2⟩ := hw
      subst hw1
      subst hw2
      refine ⟨hc1, ?_, ?_⟩
      · simp only [genIds, genIdsList_refl]
        rcases hsf.2 with ⟨hn, hid, hdec⟩ | ⟨hm2, heq⟩
        · subst hn
          dsimp only
          rw [hid, hdec, decList_cons _ _ (by omega), decList_self]
          rfl
        · subst hm2
          rw [heq]
          dsimp only
          rw [decList_self]
          rfl
      · intro hnd
        rw [hsf.1]
        exact hnd
    | some p2 =>
      obtain ⟨st3, addr⟩ := p2
      rw [hr] at hw
      dsimp only at hw
      have hrs := resolveStep_state docAddr st1 a1 b1 c1 d1 e1 sn st3 addr hr
      cases ha : attachStep st3 addr p with
      | error e =>
        rw [ha] at hw
        simp at hw
      | ok st4 =>
        rw [ha] at hw
        dsimp only at hw
        have has := attachStep_state p st3 addr st4 ha
        by_cases hcond : sn.type = some NodeType.Document ∨ sn.type = some NodeType.Element
        · rw [if_pos hcond] at hw
          cases hwl : walkList docAddr ch (some sn) st4 with
          | error e =>
            rw [hwl] at hw
            simp at hw
          | ok q =>
            obtain ⟨st5, ch2⟩ := q
            rw [hwl] at hw
            dsimp only at hw
            simp only [Except.ok.injEq, Prod.mk.injEq] at hw
            obtain ⟨hw1, hw2⟩ := hw
            subst hw1
            subst hw2
            have ih := walkList_ids docAddr ch (some sn) st4 st5 ch2 hwl
            refine ⟨?_, ?_, ?_⟩
            · have q1 := ih.1
              have q2 := has.1
              have q3 := hrs.1
              omega
            · simp only [genIds]
              rw [ih.2.1]
              rcases hsf.2 with ⟨hn, hid, hdec⟩ | ⟨hm2, heq⟩
              · subst hn
                dsimp only
                have e4 : st4.notSerializedId = st.notSerializedId - 1 := by
                  rw [has.1, hrs.1, hdec]
                rw [hid, e4,
                  decList_cons st.notSerializedId st5.notSerializedId
                    (by have q1 := ih.1; omega)]
                rfl
              · subst hm2
                have e4 : st4.notSerializedId = st.notSerializedId := by
                  rw [has.1, hrs.1, heq]
                dsimp only
                rw [e4]
                rfl
            · intro hnd
              apply ih.2.2
              rw [has.2]
              rcases hrs.2 with hm3 | hm3
              · rw [hm3, hsf.1]
                exact hnd
              · rw [hm3]
                exact mirrorSet_keys_nodup _ _ _ (by rw [hsf.1]; exact hnd)
        · rw [if_neg hcond] at hw
          simp only [Except.ok.injEq, Prod.mk.injEq] at hw
          obtain ⟨hw1, hw2⟩ := hw
          subst hw1
          subst hw2
          refine ⟨?_, ?_, ?_⟩
          · have q2 := has.1
            have q3 := hrs.1
            omega
          · simp only [genIds, genIdsList_refl]
            rcases hsf.2 with ⟨hn, hid, hdec⟩ | ⟨hm2, heq⟩
            · subst hn
              dsimp only
              have e4 : st4.notSerializedId = st.notSerializedId - 1 := by
                rw [has.1, hrs.1, hdec]
              rw [hid, e4, decList_cons _ _ (by omega), decList_self]
              rfl
            · subst hm2
              have e4 : st4.notSerializedId = st.notSerializedId := by
                rw [has.1, hrs.1, heq]
              dsimp only
              rw [e4, decList_self]
              rfl
          · intro hnd
            rw [has.2]
            rcases hrs.2 with hm3 | hm3
            · rw [hm3, hsf.1]
              exact hnd
            · rw [hm3]
              exact mirrorSet_keys_nodup _ _ _ (by rw [hsf.1]; exact hnd)
termination_by structural t

theorem walkList_ids (docAddr : Nat) (ts : List LiveTree) (p : Option SN)
    (st st2 : WalkState) (ts2 : List LiveTree)
    (hw : walkList docAddr ts p st = .ok (st2, ts2)) :
    st2.notSerializedId ≤ st.notSerializedId ∧
    genIdsList ts ts2 = decList st.notSerializedId st2.notSerializedId ∧
    ((st.mirror.map Prod.fst).Nodup → (st2.mirror.map Prod.fst).Nodup) := by
  cases ts with
  | nil =>
    unfold walkList at hw
    simp only [Except.ok.injEq, Prod.mk.injEq] at hw
    obtain ⟨hw1, hw2⟩ := hw
    subst hw1
    subst hw2
    exact ⟨le_refl _, by rw [decList_self]; rfl, fun hnd => hnd⟩
  | cons n rest =>
    unfold walkList at hw
    cases hw1 : walk docAddr n p st with
    | error e =>
      rw [hw1] at hw
      simp at hw
    | ok q1 =>
      obtain ⟨stm, n2⟩ := q1
      rw [hw1] at hw
      dsimp only at hw
      cases hw2 : walkList docAddr rest p stm with
      | error e =>
        rw [hw2] at hw
        simp at hw
      | ok q2 =>
        obtain ⟨stm2, rest2⟩ := q2
        rw [hw2] at hw
        dsimp only at hw
        simp only [Except.ok.injEq, Prod.mk.injEq] at hw
        obtain ⟨hwa, hwb⟩ := hw
        subst hwa
        subst hwb
        have ih1 := walk_ids docAddr n p st stm n2 hw1
        have ih2 := walkList_ids docAddr rest p stm stm2 rest2 hw2
        refine ⟨by have q1 := ih1.1; have q2 := ih2.1; omega, ?_,
          fun hnd => ih2.2.2 (ih1.2.2 hnd)⟩
        show genIds n n2 ++ genIdsList rest rest2 = _
        rw [ih1.2.1, ih2.2.1]
        exact (decList_append _ _ _ ih1.1 ih2.1).symm
termination_by structural ts

end

/-- A heap holding a document at address 0, the target of the concrete
buildFromDom runs below. -/
def hDocW : Heap := setNode baseHeap 0 { kind := .document }

/-- A small live tree: an unstamped document holding an element holding a text
node. -/
def domW : LiveTree :=
  .mk 9 "" false [] "" none
    [.mk 1 "HTML" false [] "" none [.mk 3 "" false [] "hi" none []]]

/-- C6: within one buildFromDom call, every visited live node that arrived
without a serialized record is stamped with a freshly generated id, and these
generated ids, read off the stamped output tree in visit order, form exactly
the consecutive descending run from -1 down to the final counter value:
strictly decreasing, all negative, and free of collisions within the walk. -/
theorem buildFromDom_generated_ids (h : Heap) (docAddr nextAddr : Nat) (dom : LiveTree)
    (st2 : WalkState) (dom2 : LiveTree)
    (hb : buildFromDom h docAddr nextAddr dom = .ok (st2, dom2)) :
    genIds dom dom2 = decList (-1) st2.notSerializedId ∧
    List.Chain' (· > ·) (genIds dom dom2) ∧
    (∀ i ∈ genIds dom dom2, i < 0) ∧
    (genIds dom dom2).Nodup := by
  unfold buildFromDom at hb
  have hm := walk_ids docAddr dom none _ st2 dom2 hb
  have hstart : genIds dom dom2 = decList (-1) st2.notSerializedId := hm.2.1
  refine ⟨hstart, ?_, ?_, ?_⟩
  · rw [hstart]
    exact decList_chain _ _
  · intro i hi
    rw [hstart] at hi
    have h2 := decList_mem _ _ i hi
    omega
  · rw [hstart]
    exact decList_nodup _ _

theorem buildFromDom_generated_ids_witness :
    genIds domW (okTree (buildFromDom hDocW 0 1 domW) domW) =
      decList (-1) (okWS (buildFromDom hDocW 0 1 domW)).notSerializedId ∧
    List.Chain' (· > ·) (genIds domW (okTree (buildFromDom hDocW 0 1 domW) domW)) ∧
    (∀ i ∈ genIds domW (okTree (buildFromDom hDocW 0 1 domW) domW), i < 0) ∧
    (genIds domW (okTree (buildFromDom hDocW 0 1 domW) domW)).Nodup :=
  buildFromDom_generated_ids hDocW 0 1 domW _ _ (by rfl)

/-- A bare, unstamped live document root. -/
def domBare : LiveTree := .mk 9 "" false [] "" none []

def buildCall1 : Except String (WalkState × LiveTree) := buildFromDom hDocW 0 1 domBare

def buildCall2 : Except String (WalkState × LiveTree) :=
  buildFromDom (okWS buildCall1).heap 0 (okWS buildCall1).nextAddr domBare

/-- C3 counterexample: the generated-id counter is local to each buildFromDom
call and restarts at -1, so two successive calls on the same document each
hand out the id -1 to a different unrecorded live root: over the document
lifetime the generated-id sequence is -1, -1 — neither strictly decreasing
nor free of reuse, refuting the lifetime-wide claim. -/
theorem generated_ids_reused_across_walks :
    buildCall1.isOk = true ∧ buildCall2.isOk = true ∧
    genIds domBare (okTree buildCall1 domBare) = [-1] ∧
    genIds domBare (okTree buildCall2 domBare) = [-1] :=
  ⟨rfl, rfl, rfl, rfl⟩

/-- C3 amended: the ids registered in one Mirror Table are pairwise unique,
and within each single buildFromDom call the internally generated ids are
strictly decreasing, starting at -1; the generator however restarts at -1 on
every call, so generated ids can recur across successive calls during the
document lifetime. -/
theorem mirror_ids_unique_and_ids_decrease_per_call (h : Heap) (docAddr nextAddr : Nat)
    (dom : LiveTree) (st2 : WalkState) (dom2 : LiveTree)
    (hb : buildFromDom h docAddr nextAddr dom = .ok (st2, dom2)) :
    (st2.mirror.map Prod.fst).Nodup ∧
    genIds dom dom2 = decList (-1) st2.notSerializedId := by
  unfold buildFromDom at hb
  have hm := walk_ids docAddr dom none _ st2 dom2 hb
  exact ⟨hm.2.2 (by simp), hm.2.1⟩

theorem mirror_ids_unique_witness :
    ((okWS (buildFromDom hDocW 0 5 domBare)).mirror.map Prod.fst).Nodup ∧
    genIds domBare (okTree (buildFromDom hDocW 0 5 domBare) domBare) =
      decList (-1) (okWS (buildFromDom hDocW 0 5 domBare)).notSerializedId :=
  mirror_ids_unique_and_ids_decrease_per_call hDocW 0 5 domBare _ _ (by rfl)

end RRDom

